import Mathlib

/-!
Verification development for the casino-bot screen-interaction core.

Shallow embedding of `src/screen.py`, `src/ocr_debug.py`,
`src/games/base_game.py` and the OCR parsing of
`src/games/infinite_blackjack.py`.

Conventions:
* Pixel coordinates are `Nat` (the code only produces non-negative
  coordinates); correlation scores are `ℚ` (the code uses floats in
  `[-1, 1]`; all comparisons performed by the code are order
  comparisons, faithfully represented over `ℚ`).
* OCR text is `List Char`.
* External numeric kernels (OpenCV's correlation values) enter the
  model as an explicit score function; everything the Python code does
  with those values is embedded.
-/

namespace CasinoBot

/-! ### Coordinate scaling (screen.py)

`take_screenshot` converts logical coordinates to physical (Retina)
pixels by multiplying by the cached `_RETINA_SCALE`; `find_element`
converts back with Python floor division `//`. -/

/-- Logical → physical conversion used by `take_screenshot`
(`region["x"] * _RETINA_SCALE`, componentwise multiply). -/
def toPhysicalPoint (scale : Nat) (p : Nat × Nat) : Nat × Nat :=
  (p.1 * scale, p.2 * scale)

/-- Physical → logical conversion used by `find_element`
(`center_x // _RETINA_SCALE`, Python floor division). -/
def toLogicalPoint (scale : Nat) (q : Nat × Nat) : Nat × Nat :=
  (q.1 / scale, q.2 / scale)

/-! ### Session state and log_round (base_game.py)

`BaseGame` session fields mutated by `log_round`.  The CSV write and
console printing are I/O with no effect on session state. -/

/-- Session-state fields of `BaseGame` (base_game.py, `__init__`). -/
structure SessionState where
  session_start : ℚ
  session_duration : ℚ
  rounds_played : Nat
  starting_balance : Option ℚ
  current_balance : Option ℚ
  running : Bool
deriving DecidableEq, Repr

/-- State effect of `BaseGame.log_round` (base_game.py lines 157-175):
increment `rounds_played`; set `current_balance` only when `balance`
is not `None`.  The `notes` argument is only written to the CSV log. -/
def log_round (st : SessionState) (balance : Option ℚ) (notes : List Char) : SessionState :=
  let st1 := { st with rounds_played := st.rounds_played + 1 }
  let _ := notes
  match balance with
  | some b => { st1 with current_balance := some b }
  | none => st1

/-! ### Template matching (screen.py)

`find_element` / `find_all_elements` run
`cv2.matchTemplate(..., TM_CCOEFF_NORMED)` over a captured frame.
OpenCV's numeric correlation kernel is external to the repository; it
enters the model as an explicit score function.  Everything the Python
code itself does — the dimension requirement, the global-max check,
the threshold collection, the stable descending sort, the greedy
suppression, and the coordinate conversions — is embedded below. -/

/-- A raw match candidate as built in `find_all_elements`:
center coordinates plus correlation score. -/
structure Match where
  x : Nat
  y : Nat
  score : ℚ
deriving DecidableEq, Repr

/-- Absolute pixel distance `abs(a - b)` on non-negative coordinates. -/
def pixDist (a b : Nat) : Nat := max a b - min a b

/-- A score map of the given dimensions filled from the external
correlation kernel. -/
def resultGrid (scores : Nat → Nat → ℚ) (h w : Nat) : List (List ℚ) :=
  (List.range h).map fun y => (List.range w).map fun x => scores y x

/-- Model of `cv2.matchTemplate(screenshot, template, TM_CCOEFF_NORMED)`.
OpenCV first checks whether the image contains the template in both
dimensions (`swapNotNeed`) and then correlates over a
`(f_h - t_h + 1) x (f_w - t_w + 1)` map; otherwise it asserts that
the image fits inside the template in both dimensions — raising
`cv2.error` only in the mixed case — and swaps image and template,
correlating with the roles reversed over a
`(t_h - f_h + 1) x (t_w - f_w + 1)` map.  The numeric correlation
kernel is external; it enters the model as the score function
`scores` over the produced grid. -/
def matchTemplate (scores : Nat → Nat → ℚ) (f_h f_w t_h t_w : Nat) :
    Except String (List (List ℚ)) :=
  if t_h ≤ f_h ∧ t_w ≤ f_w then
    .ok (resultGrid scores (f_h - t_h + 1) (f_w - t_w + 1))
  else if f_h ≤ t_h ∧ f_w ≤ t_w then
    .ok (resultGrid scores (t_h - f_h + 1) (t_w - f_w + 1))
  else
    .error "cv2.error: assertion failed"

/-- Row-major enumeration of a score map as `(y, x, value)` triples
(`np.where` and `cv2.minMaxLoc` both scan in this order). -/
def gridEntries (res : List (List ℚ)) : List (Nat × Nat × ℚ) :=
  ((res.enum.map fun yr => yr.2.enum.map fun xv => (yr.1, xv.1, xv.2))).flatten

/-- The raw candidate list of `find_all_elements`: every location with
score at or above `confidence`, in row-major (`np.where`) order, with
centers offset by half the template extent. -/
def rawMatchesOf (res : List (List ℚ)) (t_h t_w : Nat) (confidence : ℚ) :
    List Match :=
  (gridEntries res).filterMap fun e =>
    if confidence ≤ e.2.2 then some ⟨e.2.1 + t_w / 2, e.1 + t_h / 2, e.2.2⟩
    else none

/-- Python `raw_matches.sort(key=lambda m: m[2], reverse=True)`:
a stable sort by descending score. -/
def sortByScoreDesc (l : List Match) : List Match :=
  l.mergeSort fun a b => decide (b.score ≤ a.score)

/-- The code's proximity test inside the suppression loop: within
`min_dist_px` on both axes. -/
def tooCloseB (d : Nat) (m f : Match) : Bool :=
  decide (pixDist m.x f.x < d) && decide (pixDist m.y f.y < d)

/-- Greedy non-maximum suppression loop of `find_all_elements`:
a candidate is kept unless it is too close to an already-kept match. -/
def nmsFilter (d : Nat) (kept : List Match) : List Match → List Match
  | [] => kept
  | m :: rest =>
    if kept.any (tooCloseB d m) then nmsFilter d kept rest
    else nmsFilter d (kept ++ [m]) rest

/-- Post-`matchTemplate` pipeline of `find_all_elements` (screen.py
lines 156-188): collect at-or-above threshold, sort descending by
score, suppress candidates within `min_distance * scale` physical
pixels of a kept one, then convert centers to logical coordinates. -/
def findAllFromResult (res : List (List ℚ)) (t_h t_w : Nat)
    (confidence : ℚ) (min_distance scale : Nat) : List (Nat × Nat) :=
  (nmsFilter (min_distance * scale) []
      (sortByScoreDesc (rawMatchesOf res t_h t_w confidence))).map
    fun m => (m.x / scale, m.y / scale)

/-- Model of `screen.find_all_elements` (screen.py lines 130-191). -/
def find_all_elements (scores : Nat → Nat → ℚ) (f_h f_w t_h t_w : Nat)
    (confidence : ℚ) (min_distance scale : Nat) :
    Except String (List (Nat × Nat)) :=
  (matchTemplate scores f_h f_w t_h t_w).map fun res =>
    findAllFromResult res t_h t_w confidence min_distance scale

/-- Pairwise separation hypothesis of the NMS claim: strictly farther
than `d` physical pixels on at least one axis, the negation of the
code's `tooCloseB` with a strict margin. -/
def farApart (d : Nat) (a b : Match) : Prop :=
  d < pixDist a.x b.x ∨ d < pixDist a.y b.y

instance (d : Nat) (a b : Match) : Decidable (farApart d a b) := by
  unfold farApart; infer_instance

/-! ### OCR preprocessing pipeline (screen.py, ocr_debug.py)

The image operations themselves are external OpenCV kernels; the
claims concern which operations run and in which order, so the
pipeline is embedded as the sequence of operations applied.  The one
image-dependent branch condition (`np.mean(gray) < 127`) enters the
model as an explicit boolean. -/

/-- One image operation of the OCR preprocessing pipelines. -/
inductive OcrStep where
  | grayscale
  | otsuThreshold
  | gaussianBlur
  | invertImage
  | upscale (factor : Nat)
  | pad (border : Nat)
deriving DecidableEq, Repr

/-- Operation sequence of `screen.read_text` (screen.py lines
206-219): grayscale, then Otsu threshold or Gaussian blur or nothing,
then a fixed 2x upscale.  The function applies no inversion step and
no border padding, and it does not call
`ocr_debug.preprocess_for_ocr`. -/
def read_text_steps (preprocess : String) : List OcrStep :=
  [OcrStep.grayscale]
    ++ (if preprocess = "thresh" then [OcrStep.otsuThreshold]
        else if preprocess = "blur" then [OcrStep.gaussianBlur]
        else [])
    ++ [OcrStep.upscale 2]

/-- Operation sequence of `ocr_debug.preprocess_for_ocr` (ocr_debug.py
lines 37-82): grayscale; threshold/blur/nothing; conditional
inversion; conditional upscale; conditional border padding.
`meanBelowMid` is the image-dependent test `np.mean(gray) < 127`. -/
def preprocess_for_ocr_steps (preprocess : String) (invert : Bool)
    (meanBelowMid : Bool) (border scale : Nat) : List OcrStep :=
  [OcrStep.grayscale]
    ++ (if preprocess = "thresh" then [OcrStep.otsuThreshold]
        else if preprocess = "blur" then [OcrStep.gaussianBlur]
        else [])
    ++ (if invert && meanBelowMid then [OcrStep.invertImage] else [])
    ++ (if 1 < scale then [OcrStep.upscale scale] else [])
    ++ (if 0 < border then [OcrStep.pad border] else [])

/-- The observable external calls on the OCR read path. -/
inductive OcrEffect where
  | screenshotCapture
  | tesseractCall
  | snapshotSave
deriving DecidableEq, Repr

/-- External calls performed by `screen.read_text` (screen.py lines
194-226), for any preprocessing mode: one screenshot capture and one
Tesseract invocation.  The function returns without invoking
`ocr_debug.save_ocr_snapshot`, which has no caller anywhere in the
repository. -/
def read_text_effects (preprocess : String) : List OcrEffect :=
  let _ := preprocess
  [OcrEffect.screenshotCapture, OcrEffect.tesseractCall]

/-- External calls performed by `screen.read_number` (screen.py lines
229-260): exactly those of the `read_text` call it delegates to; the
numeric cleanup that follows is pure. -/
def read_number_effects : List OcrEffect :=
  read_text_effects "thresh"

/-! ### Numeric OCR parsing (screen.py read_number) -/

/-- Python `str.strip`: drop leading and trailing whitespace. -/
def pyStrip (l : List Char) : List Char :=
  ((l.dropWhile Char.isWhitespace).reverse.dropWhile Char.isWhitespace).reverse

/-- Value of a run of decimal digits (most significant first). -/
def digitsToNat (l : List Char) : Nat :=
  l.foldl (fun acc c => acc * 10 + (c.toNat - '0'.toNat)) 0

/-- Model of Python `float()` restricted to the strings `read_number`
feeds it, i.e. strings over digits and periods: such a string parses
exactly when it is non-empty, contains at least one digit and at most
one period, and the value is the usual decimal reading. -/
def pyFloatOfDigitsDots (s : List Char) : Option ℚ :=
  if s ≠ [] ∧ s.all (fun c => c.isDigit || c == '.') ∧ s.any Char.isDigit
      ∧ s.count '.' ≤ 1 then
    some ((digitsToNat (s.takeWhile (fun c => !(c == '.'))) : ℚ)
      + (digitsToNat ((s.dropWhile (fun c => !(c == '.'))).drop 1) : ℚ)
        / (10 ^ ((s.dropWhile (fun c => !(c == '.'))).drop 1).length : ℚ))
  else none

/-- The digits-and-periods string that `read_number` builds from the
OCR text (screen.py lines 244-250): currency signs, commas and spaces
are removed and the remainder stripped, then every character that is
not a digit or a period is dropped. -/
def readNumberNumeric (text : List Char) : List Char :=
  (pyStrip (text.filter (fun c => !(c == '$' || c == ',' || c == ' ')))).filter
    (fun c => c.isDigit || c == '.')

/-- Model of `screen.read_number` (screen.py lines 229-260) as a
function of the OCR text returned for the region: `None` exactly when
no digit-or-period characters remain or the remainder does not parse
as a float. -/
def read_number (text : List Char) : Option ℚ :=
  if readNumberNumeric text = [] then none
  else pyFloatOfDigitsDots (readNumberNumeric text)

/-! ### Soft/hard hand parsing (infinite_blackjack.py) -/

/-- The `_OCR_CORRECTIONS` character table of `InfiniteBlackjackGame`
(infinite_blackjack.py lines 375-388), applied character by
character. -/
def ocrCorrect : Char → Char
  | '&' => '8'
  | '@' => '8'
  | 'B' => '8'
  | 'O' => '0'
  | 'o' => '0'
  | 'l' => '1'
  | 'I' => '1'
  | '|' => '1'
  | 'S' => '5'
  | 's' => '5'
  | 'Z' => '2'
  | 'z' => '2'
  | c => c

/-- Model of Python `int()` on the cleaned OCR part strings: an
optional sign followed by a non-empty digit run (surrounding
whitespace was already removed by the caller). -/
def pyInt (s : List Char) : Option Int :=
  match s with
  | [] => none
  | '+' :: rest =>
    if rest ≠ [] ∧ rest.all Char.isDigit then some (digitsToNat rest : Int)
    else none
  | '-' :: rest =>
    if rest ≠ [] ∧ rest.all Char.isDigit then some (-(digitsToNat rest : Int))
    else none
  | _ =>
    if s.all Char.isDigit then some (digitsToNat s : Int) else none

/-- Python `str.split(sep)` for a one-character separator. -/
def splitOnChar (sep : Char) : List Char → List (List Char)
  | [] => [[]]
  | c :: rest =>
    if c = sep then [] :: splitOnChar sep rest
    else
      match splitOnChar sep rest with
      | [] => [[c]]
      | h :: t => (c :: h) :: t

/-- Hard-total fallback of `_read_player_total` (infinite_blackjack.py
lines 432-445): keep only the digit characters and parse them as an
integer. -/
def hardTotal (corrected : List Char) : Option (Int × Bool) :=
  if corrected.filter Char.isDigit = [] then none
  else
    match pyInt (corrected.filter Char.isDigit) with
    | some t => some (t, false)
    | none => none

/-- The cleaned-and-corrected form of the OCR text built by
`_read_player_total` (infinite_blackjack.py lines 411-414): spaces
removed, stripped, then the correction table applied character by
character — before any splitting on the slash. -/
def playerTotalCleaned (text : List Char) : List Char :=
  (pyStrip (text.filter (fun c => !(c == ' ')))).map ocrCorrect

/-- The parsing tail of `InfiniteBlackjackGame._read_player_total`
(infinite_blackjack.py lines 407-445) as a function of the OCR text
for the `player_total` region: empty text fails; otherwise the
cleaned-and-corrected text is split on the slash when one is present
(exactly two integer parts give the soft total `max(low, high)`, a
part that is no integer fails, any other part count falls through),
and otherwise its digits are parsed as a hard total.  The `read_text`
call that precedes this tail is modelled separately by
`read_player_total_run`, because its keyword binding fails. -/
def read_player_total (text : List Char) : Option (Int × Bool) :=
  if text = [] then none
  else
    if '/' ∈ playerTotalCleaned text then
      match splitOnChar '/' (playerTotalCleaned text) with
      | [p0, p1] =>
        match pyInt p0, pyInt p1 with
        | some low, some high => some (max low high, true)
        | _, _ => none
      | _ => hardTotal (playerTotalCleaned text)
    else hardTotal (playerTotalCleaned text)

/-- The keyword parameters accepted by `screen.read_text`
(screen.py line 194): `region` and `preprocess`. -/
def read_text_params : List String := ["region", "preprocess"]

/-- The keyword arguments passed to `read_text` by
`_read_player_total` (infinite_blackjack.py line 406):
`whitelist="0123456789/"`. -/
def read_player_total_call_kwargs : List String := ["whitelist"]

/-- Python call binding: passing a keyword argument that is not among
the callee's parameters raises `TypeError`. -/
def callRaisesTypeError (params kwargs : List String) : Bool :=
  kwargs.any (fun k => !(params.contains k))

/-- Model of `_read_player_total` as integrated: the `read_text` call
at infinite_blackjack.py line 406 is evaluated first and its keyword
binding is checked; a `TypeError` aborts the function before the
parsing tail runs, and otherwise the parsing tail processes the OCR
text. -/
def read_player_total_run (text : List Char) :
    Except String (Option (Int × Bool)) :=
  if callRaisesTypeError read_text_params read_player_total_call_kwargs then
    Except.error "TypeError: read_text() got an unexpected keyword argument"
  else
    Except.ok (read_player_total text)

/-! ### Snapshot rotation (ocr_debug.py)

Snapshot files for one label, modelled structurally: a file is its
group timestamp plus which of the three files of the group it is.
Filenames `{label}_{ts}_raw.png`, `{label}_{ts}_processed.png` and
`{label}_{ts}.json` embed a fixed-width, monotonically increasing
timestamp, so sorting filenames lexicographically (as
`sorted(out_dir.glob(...))` does) equals sorting by timestamp; the
write number stands in for the timestamp. -/

/-- Which member of a snapshot group a file is. -/
inductive SnapKind where
  | raw
  | processed
  | meta
deriving DecidableEq, Repr

/-- A snapshot file of the label under consideration. -/
structure SnapFile where
  ts : Nat
  kind : SnapKind
deriving DecidableEq, Repr

/-- The three files written by one `save_ocr_snapshot` call
(ocr_debug.py lines 128-148): raw crop, processed crop and JSON
metadata sharing one timestamped base name. -/
def snapGroup (ts : Nat) : List SnapFile :=
  [⟨ts, SnapKind.raw⟩, ⟨ts, SnapKind.processed⟩, ⟨ts, SnapKind.meta⟩]

/-- The snapshot files of a list of groups. -/
def snapGroups (ts : List Nat) : List SnapFile :=
  (ts.map snapGroup).flatten

/-- Model of `rotate_snapshots` (ocr_debug.py lines 169-211) for one
label: collect the raw files sorted by timestamp; when their count
exceeds `max_snapshots`, delete all three files of each of the oldest
excess groups. -/
def rotate_snapshots (max_snapshots : Nat) (dir : List SnapFile) : List SnapFile :=
  let raws := ((dir.filter (fun f => f.kind == SnapKind.raw)).map SnapFile.ts).mergeSort
    (fun a b => decide (a ≤ b))
  if raws.length ≤ max_snapshots then dir
  else dir.filter (fun f => !((raws.take (raws.length - max_snapshots)).contains f.ts))

/-- One `save_ocr_snapshot` call (ocr_debug.py lines 121-153) for the
label: write the three files of the new group, then rotate. -/
def save_ocr_snapshot (max_snapshots : Nat) (dir : List SnapFile) (ts : Nat) :
    List SnapFile :=
  rotate_snapshots max_snapshots (dir ++ snapGroup ts)

/-- Directory contents after `n` successive snapshot writes for one
label, starting from no files for that label and writing with
strictly increasing timestamps 0, 1, 2, ... -/
def snapshotRun (max_snapshots : Nat) : Nat → List SnapFile
  | 0 => []
  | n + 1 => save_ocr_snapshot max_snapshots (snapshotRun max_snapshots n) n

/-! ### Game loop error recovery (base_game.py BaseGame.run) -/

/-- Behaviour of the injected `detect_state`/`step` pair on one loop
iteration.  `detectRaises`/`stepRaises` stand for an `Exception`
reaching the loop's `except Exception` handler. -/
inductive IterOutcome where
  | ok
  | detectRaises
  | stepRaises
  | keyboardInterrupt
deriving DecidableEq, Repr

/-- Environment of one loop iteration, i.e. everything outside the
loop's own control flow: `expired` is `session_expired` at the
`while` condition, `reality` the result of `_check_reality_check`,
`outcome` how `detect_state`/`step` behave, and `runningAfter` the
value of `self.running` observed after the body (the SIGINT handler
or the domain behaviour may clear it at any time). -/
structure IterEnv where
  expired : Bool
  reality : Bool
  outcome : IterOutcome
  runningAfter : Bool
deriving DecidableEq, Repr

/-- Observable events of the loop. -/
inductive LoopEv where
  | realityHandled
  | detectCall
  | stepCall
  | errorLogged
  | cooldownSleep
  | exited
deriving DecidableEq, Repr

/-- Events of one loop-body execution (base_game.py lines 302-314):
a handled reality check short-circuits the iteration; otherwise
`detect_state` runs, then `step`; an `Exception` from either is
handled by `on_error` — logged with the game-loop context, then a
fixed cooldown sleep (lines 224-233). -/
def iterEvents (e : IterEnv) : List LoopEv :=
  if e.reality then [LoopEv.realityHandled]
  else
    match e.outcome with
    | IterOutcome.ok => [LoopEv.detectCall, LoopEv.stepCall]
    | IterOutcome.detectRaises =>
      [LoopEv.detectCall, LoopEv.errorLogged, LoopEv.cooldownSleep]
    | IterOutcome.stepRaises =>
      [LoopEv.detectCall, LoopEv.stepCall, LoopEv.errorLogged, LoopEv.cooldownSleep]
    | IterOutcome.keyboardInterrupt => [LoopEv.detectCall]

/-- The events that precede the error handler when `detect_state` or
`step` raises an `Exception`. -/
def raiseEvents : IterOutcome → List LoopEv
  | IterOutcome.detectRaises => [LoopEv.detectCall]
  | IterOutcome.stepRaises => [LoopEv.detectCall, LoopEv.stepCall]
  | _ => []

/-- Model of the `while` loop of `BaseGame.run` (base_game.py lines
299-314) over a finite observation window of iteration environments:
the loop exits when the running flag is cleared or the session has
expired; a `KeyboardInterrupt` breaks; after a caught `Exception` the
loop breaks exactly when the running flag was cleared.  An exhausted
environment list ends the observation with the loop still live. -/
def runTrace (running : Bool) : List IterEnv → List LoopEv
  | [] => []
  | e :: rest =>
    if running && !e.expired then
      if e.reality then
        LoopEv.realityHandled :: runTrace e.runningAfter rest
      else
        match e.outcome with
        | IterOutcome.ok => iterEvents e ++ runTrace e.runningAfter rest
        | IterOutcome.keyboardInterrupt => iterEvents e ++ [LoopEv.exited]
        | IterOutcome.detectRaises =>
          iterEvents e ++ (if e.runningAfter then runTrace e.runningAfter rest
                           else [LoopEv.exited])
        | IterOutcome.stepRaises =>
          iterEvents e ++ (if e.runningAfter then runTrace e.runningAfter rest
                           else [LoopEv.exited])
    else [LoopEv.exited]

end CasinoBot

namespace CasinoBot

/-- C9: coordinate round trip.  For every logical point `p` and cached
scale `s ≥ 1`, converting to physical (multiply) and back to logical
(floor divide) returns `p` exactly, hence within the claimed 1-pixel
tolerance. -/
theorem coordinate_round_trip (s : Nat) (p : Nat × Nat) (hs : 1 ≤ s) :
    toLogicalPoint s (toPhysicalPoint s p) = p := by
  have hs' : 0 < s := hs
  simp [toLogicalPoint, toPhysicalPoint, Nat.mul_div_cancel _ hs']

/-- Witness for C9 at scale 2 and point (5, 7). -/
theorem coordinate_round_trip_witness :
    1 ≤ 2 ∧ toLogicalPoint 2 (toPhysicalPoint 2 (5, 7)) = (5, 7) :=
  ⟨by decide, coordinate_round_trip 2 (5, 7) (by decide)⟩

/-- C10: frame property of `log_round`.  Every call increments
`rounds_played` by exactly 1; `current_balance` is set to the passed
balance exactly when it is not `None` and kept otherwise; and
`starting_balance`, `session_start`, `session_duration` and the
`running` flag are never modified. -/
theorem log_round_frame (st : SessionState) (b : Option ℚ) (v : ℚ) (notes notes1 notes2 : List Char) :
    (log_round st b notes).rounds_played = st.rounds_played + 1 ∧
    (log_round st (some v) notes1).current_balance = some v ∧
    (log_round st none notes2).current_balance = st.current_balance ∧
    (log_round st b notes).starting_balance = st.starting_balance ∧
    (log_round st b notes).session_start = st.session_start ∧
    (log_round st b notes).session_duration = st.session_duration ∧
    (log_round st b notes).running = st.running := by
  cases b <;> simp [log_round]

/-- Pixel distance is symmetric. -/
theorem pixDist_comm (a b : Nat) : pixDist a b = pixDist b a := by
  unfold pixDist; omega

/-- The proximity test of the suppression loop is symmetric. -/
theorem tooCloseB_symm (d : Nat) (m f : Match) :
    tooCloseB d m f = tooCloseB d f m := by
  unfold tooCloseB
  rw [pixDist_comm m.x, pixDist_comm m.y]

/-- The separation relation is symmetric. -/
theorem farApart_symm (d : Nat) : Symmetric (farApart d) := by
  intro a b h
  unfold farApart pixDist at h ⊢
  omega

/-- Separation refutes the proximity test. -/
theorem tooCloseB_eq_false_of_farApart {d : Nat} {a m : Match}
    (h : farApart d a m) : tooCloseB d m a = false := by
  unfold farApart pixDist at h
  unfold tooCloseB pixDist
  rcases h with h | h
  · have hx : decide (max m.x a.x - min m.x a.x < d) = false :=
      decide_eq_false (by omega)
    rw [hx, Bool.false_and]
  · have hy : decide (max m.y a.y - min m.y a.y < d) = false :=
      decide_eq_false (by omega)
    rw [hy, Bool.and_false]

/-- When every pending candidate is far from every kept match and the
pending candidates are pairwise far apart, the greedy suppression loop
keeps everything, in order. -/
theorem nmsFilter_of_farApart (d : Nat) :
    ∀ (rem kept : List Match),
      rem.Pairwise (farApart d) →
      (∀ a ∈ kept, ∀ b ∈ rem, farApart d a b) →
      nmsFilter d kept rem = kept ++ rem
  | [], kept, _, _ => by simp [nmsFilter]
  | m :: rest, kept, hp, hk => by
    have hany : kept.any (tooCloseB d m) = false := by
      rw [List.any_eq_false]
      intro a ha
      have hfar := hk a ha m (List.mem_cons_self m rest)
      simp [tooCloseB_eq_false_of_farApart hfar]
    have hk' : ∀ a ∈ kept ++ [m], ∀ b ∈ rest, farApart d a b := by
      intro a ha b hb
      rcases List.mem_append.mp ha with ha' | ha'
      · exact hk a ha' b (List.mem_cons_of_mem _ hb)
      · have haeq : a = m := by simpa using ha'
        subst haeq
        exact (List.pairwise_cons.mp hp).1 b hb
    calc nmsFilter d kept (m :: rest)
        = nmsFilter d (kept ++ [m]) rest := by
          simp only [nmsFilter, hany, Bool.false_eq_true, if_false]
      _ = (kept ++ [m]) ++ rest :=
          nmsFilter_of_farApart d rest (kept ++ [m])
            (List.Pairwise.of_cons hp) hk'
      _ = kept ++ (m :: rest) := by simp

/-- C1: `find_all_elements` collects every location at or above the
threshold, sorts descending by score, and greedily keeps a candidate
only when it is farther than `min_distance * scale` physical pixels
(per axis) from every kept one.  First conjunct: when the raw
above-threshold candidates (the k template instances) are pairwise
farther apart than the suppression distance, all k are returned.
Second conjunct: when exactly two candidates are within the
suppression distance, only the higher-scoring one is returned. -/
theorem find_all_elements_nms :
    (∀ (res : List (List ℚ)) (t_h t_w : Nat) (confidence : ℚ)
        (min_distance scale : Nat),
      (rawMatchesOf res t_h t_w confidence).Pairwise
          (farApart (min_distance * scale)) →
      (findAllFromResult res t_h t_w confidence min_distance scale).length
        = (rawMatchesOf res t_h t_w confidence).length) ∧
    (∀ (res : List (List ℚ)) (t_h t_w : Nat) (confidence : ℚ)
        (min_distance scale : Nat) (a b : Match),
      rawMatchesOf res t_h t_w confidence = [a, b] →
      tooCloseB (min_distance * scale) a b = true →
      a.score ≠ b.score →
      findAllFromResult res t_h t_w confidence min_distance scale
        = [if b.score < a.score then (a.x / scale, a.y / scale)
           else (b.x / scale, b.y / scale)]) := by
  constructor
  · intro res t_h t_w confidence min_distance scale hsep
    have hperm : List.Perm (sortByScoreDesc (rawMatchesOf res t_h t_w confidence))
        (rawMatchesOf res t_h t_w confidence) :=
      List.mergeSort_perm _ _
    have hsorted : (sortByScoreDesc (rawMatchesOf res t_h t_w confidence)).Pairwise
        (farApart (min_distance * scale)) :=
      (hperm.pairwise_iff (fun hab => farApart_symm _ hab)).mpr hsep
    have hnms := nmsFilter_of_farApart (min_distance * scale)
      (sortByScoreDesc (rawMatchesOf res t_h t_w confidence)) []
      hsorted (by simp)
    unfold findAllFromResult
    rw [hnms]
    simpa using hperm.length_eq
  · intro res t_h t_w confidence min_distance scale a b hraw hclose hscore
    have hab : a ≠ b := fun h => hscore (by rw [h])
    have hperm : List.Perm (sortByScoreDesc (rawMatchesOf res t_h t_w confidence))
        [a, b] := by
      rw [hraw] at *
      exact List.mergeSort_perm _ _
    have hlen : (sortByScoreDesc (rawMatchesOf res t_h t_w confidence)).length = 2 := by
      rw [hperm.length_eq]; rfl
    have htrans : ∀ (u v w : Match),
        (fun p q : Match => decide (q.score ≤ p.score)) u v →
        (fun p q : Match => decide (q.score ≤ p.score)) v w →
        (fun p q : Match => decide (q.score ≤ p.score)) u w := by
      intro u v w huv hvw
      simp only [decide_eq_true_eq] at *
      exact le_trans hvw huv
    have htotal : ∀ (u v : Match),
        ((fun p q : Match => decide (q.score ≤ p.score)) u v ||
         (fun p q : Match => decide (q.score ≤ p.score)) v u) = true := by
      intro u v
      simp only [Bool.or_eq_true, decide_eq_true_eq]
      exact (le_total v.score u.score)
    have hpair : (sortByScoreDesc (rawMatchesOf res t_h t_w confidence)).Pairwise
        (fun p q : Match => decide (q.score ≤ p.score)) :=
      List.sorted_mergeSort htrans htotal _
    obtain ⟨x, y, hxy⟩ : ∃ x y,
        sortByScoreDesc (rawMatchesOf res t_h t_w confidence) = [x, y] := by
      rcases hs : sortByScoreDesc (rawMatchesOf res t_h t_w confidence) with
        _ | ⟨x, _ | ⟨y, _ | ⟨z, t⟩⟩⟩ <;> rw [hs] at hlen <;> simp at hlen
      exact ⟨x, y, rfl⟩
    have hmem_a : a ∈ ([x, y] : List Match) := by
      rw [← hxy]; exact hperm.mem_iff.mpr (by simp)
    have hmem_b : b ∈ ([x, y] : List Match) := by
      rw [← hxy]; exact hperm.mem_iff.mpr (by simp)
    rw [hxy] at hpair
    have hle_xy : decide (y.score ≤ x.score) = true :=
      (List.pairwise_cons.mp hpair).1 y (by simp)
    have hyx : y.score ≤ x.score := of_decide_eq_true hle_xy
    unfold findAllFromResult
    rw [hraw] at hxy ⊢
    rw [hxy]
    simp only [List.mem_cons, List.mem_singleton, List.not_mem_nil, or_false] at hmem_a hmem_b
    rcases hmem_a with ha' | ha' <;> rcases hmem_b with hb' | hb'
    · exact absurd (ha'.trans hb'.symm) hab
    · -- sorted is [a, b]: a is the higher-scoring one
      subst ha'; subst hb'
      have hba : b.score < a.score := lt_of_le_of_ne hyx hscore.symm
      have hclose' : tooCloseB (min_distance * scale) b a = true := by
        rw [tooCloseB_symm]; exact hclose
      rw [if_pos hba]
      simp [nmsFilter, hclose']
    · -- sorted is [b, a]: b is the higher-scoring one
      subst ha'; subst hb'
      have hab' : a.score < b.score := lt_of_le_of_ne hyx hscore
      have hclose' : tooCloseB (min_distance * scale) a b = true := hclose
      rw [if_neg (not_lt_of_gt hab')]
      simp [nmsFilter, hclose']
    · exact absurd (ha'.trans hb'.symm) hab

/-- Witness for C1: a 1x6 score map with two far-apart above-threshold
locations returns both; a 1x2 score map with two near-identical
locations returns only the higher-scoring one. -/
theorem find_all_elements_nms_witness :
    ((rawMatchesOf [[(3:ℚ), 0, 0, 0, 0, 2]] 2 2 2).Pairwise
        (farApart (2 * 2)) ∧
      (findAllFromResult [[(3:ℚ), 0, 0, 0, 0, 2]] 2 2 2 2 2).length
        = (rawMatchesOf [[(3:ℚ), 0, 0, 0, 0, 2]] 2 2 2).length) ∧
    (rawMatchesOf [[(3:ℚ), 2]] 2 2 2 = [⟨1, 1, 3⟩, ⟨2, 1, 2⟩] ∧
      tooCloseB (2 * 2) ⟨1, 1, 3⟩ ⟨2, 1, 2⟩ = true ∧
      (⟨1, 1, (3:ℚ)⟩ : Match).score ≠ (⟨2, 1, 2⟩ : Match).score ∧
      findAllFromResult [[(3:ℚ), 2]] 2 2 2 2 2
        = [if (⟨2, 1, (2:ℚ)⟩ : Match).score < (⟨1, 1, (3:ℚ)⟩ : Match).score
           then ((⟨1, 1, (3:ℚ)⟩ : Match).x / 2, (⟨1, 1, (3:ℚ)⟩ : Match).y / 2)
           else ((⟨2, 1, (2:ℚ)⟩ : Match).x / 2, (⟨2, 1, (2:ℚ)⟩ : Match).y / 2)]) :=
  ⟨⟨by decide, find_all_elements_nms.1 _ 2 2 _ 2 2 (by decide)⟩,
    by decide, by decide, by decide,
    find_all_elements_nms.2 _ 2 2 _ 2 2 _ _ (by decide) (by decide) (by decide)⟩

/-- C3 (code defect): no OCR read through `read_text` or `read_number`
triggers a `save_ocr_snapshot` call — the effect trace of a read
contains no snapshot write for any preprocessing mode, although the
ocr_debug module documents that snapshots are saved on every OCR
read and that its pipeline is the one `read_text` uses. -/
theorem read_text_no_snapshot :
    (∀ preprocess : String,
      OcrEffect.snapshotSave ∉ read_text_effects preprocess) ∧
      OcrEffect.snapshotSave ∉ read_number_effects := by
  refine ⟨fun preprocess => ?_, ?_⟩
  · simp [read_text_effects]
  · simp [read_number_effects, read_text_effects]

/-- C4 (code defect): the preprocessing `read_text` applies is
grayscale, threshold-or-blur, then a fixed 2x upscale only; it
contains no inversion step and no border padding for any mode.  The
invert-then-upscale-then-pad tail (in that order, defaults 2 and
10px) exists only in `preprocess_for_ocr`, which `read_text` never
invokes. -/
theorem read_text_steps_no_invert_pad :
    read_text_steps "thresh"
        = [OcrStep.grayscale, OcrStep.otsuThreshold, OcrStep.upscale 2] ∧
    (∀ preprocess : String,
      OcrStep.invertImage ∉ read_text_steps preprocess) ∧
    (∀ (preprocess : String) (b : Nat),
      OcrStep.pad b ∉ read_text_steps preprocess) ∧
    preprocess_for_ocr_steps "thresh" true true 10 2
        = [OcrStep.grayscale, OcrStep.otsuThreshold, OcrStep.invertImage,
           OcrStep.upscale 2, OcrStep.pad 10] := by
  refine ⟨by decide, fun preprocess => ?_, fun preprocess b => ?_, by decide⟩
  · unfold read_text_steps
    split
    · simp
    · split <;> simp
  · unfold read_text_steps
    split
    · simp
    · split <;> simp

/-- C6: `read_number` strips currency signs, thousands separators and
spaces, keeps digits and periods, and fails exactly when no digit
remains or the remainder does not parse as a float; the text
`"$1,234.56"` parses to 1234.56, while empty or all-garbage text
fails. -/
theorem read_number_spec :
    (∀ text : List Char,
      read_number text = none ↔
        ((readNumberNumeric text).all (fun c => !c.isDigit) = true ∨
          pyFloatOfDigitsDots (readNumberNumeric text) = none)) ∧
    read_number ("$1,234.56".toList) = some (1234 + 56 / 100) ∧
    read_number ([]) = none ∧
    read_number ("abc".toList) = none := by
  refine ⟨fun text => ?_, ?_, by decide, by decide⟩
  · unfold read_number
    by_cases h : readNumberNumeric text = []
    · rw [if_pos h, h]
      simp
    · rw [if_neg h]
      constructor
      · exact fun hnone => Or.inr hnone
      · rintro (hall | hnone)
        · unfold pyFloatOfDigitsDots
          rw [if_neg]
          rintro ⟨-, -, hany, -⟩
          obtain ⟨x, hx, hdx⟩ := List.any_eq_true.mp hany
          have hx' := List.all_eq_true.mp hall x hx
          rw [hdx] at hx'
          simp at hx'
        · exact hnone
  · have h1 : readNumberNumeric ("$1,234.56".toList) = "1234.56".toList := by
      decide
    unfold read_number
    rw [h1, if_neg (by decide)]
    unfold pyFloatOfDigitsDots
    rw [if_pos (by decide)]
    rw [show ("1234.56".toList.takeWhile (fun c => !(c == '.'))) = "1234".toList
          from by decide,
        show (("1234.56".toList.dropWhile (fun c => !(c == '.'))).drop 1)
            = "56".toList from by decide,
        show digitsToNat ("1234".toList) = 1234 from by decide,
        show digitsToNat ("56".toList) = 56 from by decide,
        show ("56".toList).length = 2 from by decide]
    norm_num

/-- Splitting a separator-free string yields one part. -/
theorem splitOnChar_no_sep (sep : Char) :
    ∀ (l : List Char), sep ∉ l → splitOnChar sep l = [l]
  | [], _ => rfl
  | c :: rest, h => by
    have hc : ¬ c = sep := fun hh => h (hh ▸ List.mem_cons_self c rest)
    have hr := splitOnChar_no_sep sep rest (fun hh => h (List.mem_cons_of_mem c hh))
    simp [splitOnChar, hc, hr]

/-- Splitting a string with exactly one separator yields the two
surrounding parts. -/
theorem splitOnChar_pair (sep : Char) :
    ∀ (a b : List Char), sep ∉ a → sep ∉ b →
      splitOnChar sep (a ++ sep :: b) = [a, b]
  | [], b, _, hb => by
    simp [splitOnChar, splitOnChar_no_sep sep b hb]
  | c :: a', b, ha, hb => by
    have hc : ¬ c = sep := fun hh => ha (hh ▸ List.mem_cons_self c a')
    have hr := splitOnChar_pair sep a' b
      (fun hh => ha (List.mem_cons_of_mem c hh)) hb
    simp [splitOnChar, hc, hr]

/-- Law of the parsing tail of `_read_player_total`: the
misread-correction table is applied to the cleaned string before the
slash split; every text whose cleaned-and-corrected form consists of
exactly two integer parts around one slash yields the soft total
`(max(low, high), true)`; `"11/21"` gives `(21, true)` and `"15"`
gives `(15, false)`. -/
theorem read_player_total_spec :
    (∀ (text a b : List Char) (low high : Int),
      playerTotalCleaned text = a ++ '/' :: b →
      '/' ∉ a → '/' ∉ b →
      pyInt a = some low → pyInt b = some high →
      read_player_total text = some (max low high, true)) ∧
    read_player_total ("11/21".toList) = some (21, true) ∧
    read_player_total ("15".toList) = some (15, false) := by
  refine ⟨fun text a b low high hsplit ha hb hla hlb => ?_, by decide, by decide⟩
  have htext : text ≠ [] := by
    intro h
    rw [h] at hsplit
    have : playerTotalCleaned [] = [] := rfl
    rw [this] at hsplit
    exact (List.cons_ne_nil '/' b) (List.append_eq_nil.mp hsplit.symm).2
  have hmem : '/' ∈ playerTotalCleaned text := by
    rw [hsplit]
    exact List.mem_append.mpr (Or.inr (List.mem_cons_self _ _))
  unfold read_player_total
  rw [if_neg htext, if_pos hmem, hsplit, splitOnChar_pair '/' a b ha hb]
  simp only [hla, hlb]

/-- Group lists distribute over append. -/
theorem snapGroups_append (l1 l2 : List Nat) :
    snapGroups (l1 ++ l2) = snapGroups l1 ++ snapGroups l2 := by
  simp [snapGroups]

/-- The raw-file timestamps of a list of groups are exactly the group
timestamps, in order. -/
theorem rawTs_snapGroups (l : List Nat) :
    ((snapGroups l).filter (fun f => f.kind == SnapKind.raw)).map SnapFile.ts
      = l := by
  induction l with
  | nil => rfl
  | cons t l' ih =>
    simp only [snapGroups, List.map_cons, List.flatten_cons,
      List.filter_append, List.map_append] at ih ⊢
    rw [ih]
    rfl

/-- Membership of a snapshot file in a group list is membership of its
timestamp, for every file kind. -/
theorem mem_snapGroups (t : Nat) (k : SnapKind) (l : List Nat) :
    (⟨t, k⟩ : SnapFile) ∈ snapGroups l ↔ t ∈ l := by
  induction l with
  | nil => simp [snapGroups]
  | cons u l' ih =>
    simp only [snapGroups, List.map_cons, List.flatten_cons,
      List.mem_append, List.mem_cons] at ih ⊢
    rw [ih]
    constructor
    · rintro (h | h)
      · simp only [snapGroup, List.mem_cons, List.not_mem_nil, or_false] at h
        rcases h with h | h | h <;>
          exact Or.inl (congrArg SnapFile.ts h)
      · exact Or.inr h
    · rintro (h | h)
      · subst h
        refine Or.inl ?_
        cases k <;> simp [snapGroup]
      · exact Or.inr h

/-- Deleting the doomed group removes all three of its files. -/
theorem snapGroup_filter_self (t : Nat) :
    (snapGroup t).filter (fun f => !(List.contains [t] f.ts)) = [] := by
  simp [snapGroup]

/-- Deleting the doomed group leaves every other group untouched. -/
theorem snapGroups_filter_ne (t : Nat) (l : List Nat) (h : ∀ u ∈ l, ¬ u = t) :
    (snapGroups l).filter (fun f => !(List.contains [t] f.ts)) = snapGroups l := by
  induction l with
  | nil => rfl
  | cons u l' ih =>
    have hu : ¬ u = t := h u (List.mem_cons_self u l')
    have ih' := ih (fun v hv => h v (List.mem_cons_of_mem u hv))
    simp only [snapGroups, List.map_cons, List.flatten_cons,
      List.filter_append] at ih' ⊢
    rw [ih']
    congr 1
    simp [snapGroup, hu]

/-- Closed form of the write-then-rotate iteration: after `n` writes
with cap `cap`, the directory holds the groups of the last
`min n cap` timestamps, each with all three files. -/
theorem snapshotRun_eq (cap : Nat) :
    ∀ n : Nat, snapshotRun cap n
      = snapGroups (List.range' (n - cap) (min n cap)) := by
  intro n
  induction n with
  | zero =>
    rw [show min 0 cap = 0 from by omega]
    rfl
  | succ n ih =>
    have hsum : (n - cap) + (min n cap) = n := by omega
    have hstep1 : snapshotRun cap (n + 1)
        = rotate_snapshots cap
            (snapGroups (List.range' (n - cap) (min n cap + 1))) := by
      show save_ocr_snapshot cap (snapshotRun cap n) n = _
      rw [ih]
      unfold save_ocr_snapshot
      congr 1
      rw [List.range'_concat, snapGroups_append]
      simp [snapGroups, snapGroup, hsum]
    rw [hstep1]
    have hsorted : (List.range' (n - cap) (min n cap + 1)).Pairwise
        (fun a b => decide (a ≤ b) = true) :=
      (List.pairwise_le_range' (n - cap) (min n cap + 1)).imp
        (fun h => decide_eq_true h)
    simp only [rotate_snapshots]
    rw [rawTs_snapGroups, List.mergeSort_of_sorted hsorted, List.length_range']
    by_cases hcase : min n cap + 1 ≤ cap
    · rw [if_pos hcase]
      have h1 : n - cap = (n + 1) - cap := by omega
      have h2 : min n cap + 1 = min (n + 1) cap := by omega
      rw [h1, h2]
    · rw [if_neg hcase]
      have hn : cap ≤ n := by omega
      have hmin : min n cap = cap := by omega
      rw [hmin, show cap + 1 - cap = 1 from by omega, List.range'_succ]
      rw [show ((n - cap) :: List.range' (n - cap + 1) cap 1).take 1
            = [n - cap] from rfl]
      rw [show snapGroups ((n - cap) :: List.range' (n - cap + 1) cap)
            = snapGroup (n - cap) ++ snapGroups (List.range' (n - cap + 1) cap)
          from by simp [snapGroups]]
      rw [List.filter_append, snapGroup_filter_self,
        snapGroups_filter_ne (n - cap) _ (by
          intro u hu
          rw [List.mem_range'_1] at hu
          omega)]
      rw [List.nil_append]
      have hr : List.range' (n - cap + 1) cap
          = List.range' ((n + 1) - cap) (min (n + 1) cap) := by
        rw [show (n + 1) - cap = n - cap + 1 from by omega,
          show min (n + 1) cap = cap from by omega]
      rw [hr]

/-- C7: snapshot rotation bound.  For every cap, after `cap + 5`
writes for one label (each write followed by rotation), the raw-file
timestamps are exactly the last `cap` write timestamps in order
(first conjunct: exactly `cap` groups remain, the most recent ones),
and a file of any of the three kinds is present exactly when its
group is one of those `cap` survivors (second conjunct: surviving
groups keep all three files, deleted groups lose all three). -/
theorem snapshot_rotation_spec :
    (∀ cap : Nat,
      ((snapshotRun cap (cap + 5)).filter
          (fun f => f.kind == SnapKind.raw)).map SnapFile.ts
        = List.range' 5 cap) ∧
    (∀ (cap t : Nat) (k : SnapKind),
      (⟨t, k⟩ : SnapFile) ∈ snapshotRun cap (cap + 5) ↔ 5 ≤ t ∧ t < cap + 5) := by
  have hrun : ∀ cap : Nat,
      snapshotRun cap (cap + 5) = snapGroups (List.range' 5 cap) := by
    intro cap
    rw [snapshotRun_eq]
    rw [show cap + 5 - cap = 5 from by omega,
      show min (cap + 5) cap = cap from by omega]
  constructor
  · intro cap
    rw [hrun, rawTs_snapGroups]
  · intro cap t k
    rw [hrun, mem_snapGroups, List.mem_range'_1]
    omega

/-- Instance of the parsing-tail law showing the correction table
acting before the split: `"1I/2I"` is corrected to `"11/21"` and
parses as soft 21. -/
theorem read_player_total_spec_witness :
    playerTotalCleaned ("1I/2I".toList) = "11".toList ++ '/' :: "21".toList ∧
      '/' ∉ "11".toList ∧ '/' ∉ "21".toList ∧
      pyInt ("11".toList) = some 11 ∧ pyInt ("21".toList) = some 21 ∧
      read_player_total ("1I/2I".toList) = some (max 11 21, true) :=
  ⟨by decide, by decide, by decide, by decide, by decide,
    read_player_total_spec.1 ("1I/2I".toList) ("11".toList) ("21".toList) 11 21
      (by decide) (by decide) (by decide) (by decide) (by decide)⟩

/-- C5 (code defect): as integrated, `_read_player_total` never
returns a parsed total: its OCR call passes the keyword `whitelist`
to `screen.read_text`, whose signature accepts only `region` and
`preprocess`, so every invocation raises `TypeError` before the
parsing tail runs.  The parsing tail itself is faithful to the
claimed semantics — `"11/21"` would give `(21, true)` and `"15"`
would give `(15, false)` — but it is unreachable. -/
theorem read_player_total_type_error :
    (∀ text : List Char,
      read_player_total_run text
        = Except.error "TypeError: read_text() got an unexpected keyword argument") ∧
    callRaisesTypeError read_text_params read_player_total_call_kwargs = true ∧
    read_player_total ("11/21".toList) = some (21, true) ∧
    read_player_total ("15".toList) = some (15, false) := by
  refine ⟨fun text => ?_, by decide, by decide, by decide⟩
  unfold read_player_total_run
  rw [if_pos (by decide)]

/-- C8: loop resilience.  When `detect_state` or `step` raises an
`Exception` on an iteration that started unexpired and without a
handled reality-check interrupt, the loop logs the error and sleeps
the cooldown with no exit event before them, and — provided the
running flag is still set afterwards and the next iteration is
likewise unexpired and uninterrupted — the next events are a fresh
`detect_state` call: the loop does not terminate because of the
exception. -/
theorem run_loop_error_recovery (e e' : IterEnv) (rest : List IterEnv)
    (houtcome : e.outcome = IterOutcome.detectRaises ∨
      e.outcome = IterOutcome.stepRaises)
    (hexp : e.expired = false) (hreal : e.reality = false)
    (hrun : e.runningAfter = true)
    (hexp' : e'.expired = false) (hreal' : e'.reality = false) :
    LoopEv.exited ∉ raiseEvents e.outcome ∧
    LoopEv.errorLogged ∈ iterEvents e ∧
    LoopEv.cooldownSleep ∈ iterEvents e ∧
    ∃ tail, runTrace true (e :: e' :: rest)
      = raiseEvents e.outcome ++ LoopEv.errorLogged :: LoopEv.cooldownSleep ::
          LoopEv.detectCall :: tail := by
  have hnext : ∃ tl, runTrace true (e' :: rest) = LoopEv.detectCall :: tl := by
    cases ho' : e'.outcome
    · exact ⟨LoopEv.stepCall :: runTrace e'.runningAfter rest,
        by simp [runTrace, iterEvents, hexp', hreal', ho']⟩
    · exact ⟨LoopEv.errorLogged :: LoopEv.cooldownSleep ::
          (if e'.runningAfter then runTrace e'.runningAfter rest
           else [LoopEv.exited]),
        by simp [runTrace, iterEvents, hexp', hreal', ho']⟩
    · exact ⟨LoopEv.stepCall :: LoopEv.errorLogged :: LoopEv.cooldownSleep ::
          (if e'.runningAfter then runTrace e'.runningAfter rest
           else [LoopEv.exited]),
        by simp [runTrace, iterEvents, hexp', hreal', ho']⟩
    · exact ⟨[LoopEv.exited],
        by simp [runTrace, iterEvents, hexp', hreal', ho']⟩
  obtain ⟨tl, htl⟩ := hnext
  rcases houtcome with ho | ho <;>
    refine ⟨by simp [raiseEvents, ho], by simp [iterEvents, hreal, ho],
      by simp [iterEvents, hreal, ho], ⟨tl, ?_⟩⟩ <;>
    · have key : ∀ l : List IterEnv,
          runTrace true l = LoopEv.detectCall :: tl →
          runTrace true (e :: l) = raiseEvents e.outcome
            ++ LoopEv.errorLogged :: LoopEv.cooldownSleep ::
              LoopEv.detectCall :: tl := by
        intro l hl
        simp [runTrace, iterEvents, raiseEvents, hexp, hreal, hrun, ho, hl]
      exact key (e' :: rest) htl

/-- Witness for C8: a detection error on the first iteration of a
concrete two-iteration window, the loop still running afterwards. -/
theorem run_loop_error_recovery_witness :
    LoopEv.exited ∉ raiseEvents IterOutcome.detectRaises ∧
      LoopEv.errorLogged ∈ iterEvents ⟨false, false, IterOutcome.detectRaises, true⟩ ∧
      LoopEv.cooldownSleep ∈ iterEvents ⟨false, false, IterOutcome.detectRaises, true⟩ ∧
      ∃ tail,
        runTrace true
            [⟨false, false, IterOutcome.detectRaises, true⟩,
              ⟨false, false, IterOutcome.ok, true⟩]
          = raiseEvents IterOutcome.detectRaises
              ++ LoopEv.errorLogged :: LoopEv.cooldownSleep ::
                LoopEv.detectCall :: tail :=
  run_loop_error_recovery ⟨false, false, IterOutcome.detectRaises, true⟩
    ⟨false, false, IterOutcome.ok, true⟩ [] (Or.inl rfl) rfl rfl rfl rfl rfl

end CasinoBot
